import Mathlib

/-!
Shallow embedding of the shared-memory IPC core (crates/shm) of the
market-data substrate: SeqLock-protected Price Store, SPSC Event Ring
Buffer, Update Bitmap, Control Store and Health Table, together with
proofs of the testable properties stated in the specification.

Modelling conventions:
* Machine integers (u64/u32/u16/u8) are modelled as `Nat`, with an
  explicit `% 2 ^ w` wherever the source arithmetic can overflow
  (sequence counters, fetch-add counters).
* `f64` prices are modelled as `Int`: every price manipulated by this
  core is copied verbatim (volatile load/store), never computed with,
  and the arithmetic appearing in the properties (`ask = bid + 1`,
  comparisons with `0.0`) involves only exactly representable values,
  so the integer image is faithful.
* Atomic orderings and fences order memory operations but do not change
  values; under the sequentially-consistent interleaving abstraction
  used for the concurrency claim they are modelled as no-ops, and the
  interleaving of the writer's and the reader's individual loads and
  stores is kept explicit.
-/

/-! ## Capacity constants (crates/common/src/types.rs) -/

/-- `pub const NUM_SOURCES: u8 = 8` -/
def NUM_SOURCES : Nat := 8

/-- `pub const MAX_SYMBOLS: u16 = 1024` -/
def MAX_SYMBOLS : Nat := 1024

/-- Modulus of 64-bit unsigned arithmetic. -/
def U64 : Nat := 2 ^ 64

/-- Modulus of 32-bit unsigned arithmetic. -/
def U32 : Nat := 2 ^ 32

/-! ## PriceSnapshot (crates/common/src/types.rs) -/

/-- `PriceSnapshot { best_bid: f64, best_ask: f64, updated_at: u64 }` —
non-atomic snapshot returned from SeqLock reads. -/
structure PriceSnapshot where
  best_bid : Int
  best_ask : Int
  updated_at : Nat
  deriving DecidableEq, Repr

/-- `PriceSnapshot::is_valid`:
`self.best_bid > 0.0 && self.best_ask > 0.0 && self.best_bid <= self.best_ask`. -/
def PriceSnapshot.is_valid (s : PriceSnapshot) : Bool :=
  0 < s.best_bid && 0 < s.best_ask && s.best_bid ≤ s.best_ask

/-- `PriceDataEntry { best_bid, best_ask, updated_at, _pad }` — the data
half of a slot (padding omitted: it is never read or written). -/
structure PriceDataEntry where
  best_bid : Int
  best_ask : Int
  updated_at : Nat
  deriving DecidableEq, Repr

/-! ## SeqLock (crates/shm/src/seqlock.rs), sequential semantics

`seqlock_write` run to completion with no observer in between: the
intermediate odd store and the three field stores are written out in
program order; the function returns the final contents of the seq entry
and the data entry. -/

/-- `const MAX_READ_RETRIES: u32 = 4` -/
def MAX_READ_RETRIES : Nat := 4

/-- `seqlock_write(seq, data, snapshot)`: load `current`, store
`current + 1` (odd, write in progress), write the three data fields,
store `current + 2` (even, write complete).  Returns the slot contents
after the write completes. -/
def seqlock_write (seq : Nat) (data : PriceDataEntry) (snapshot : PriceSnapshot) :
    Nat × PriceDataEntry :=
  let current := seq
  let _seq_in_progress := (current + 1) % U64
  let data := { data with best_bid := snapshot.best_bid }
  let data := { data with best_ask := snapshot.best_ask }
  let data := { data with updated_at := snapshot.updated_at }
  ((current + 2) % U64, data)

/-- The retry loop of `seqlock_read` over a quiescent slot (no concurrent
writer, so every load of the sequence word returns `seq` and the data
fields are constant).  One recursive step per loop iteration. -/
def seqlock_read_loop (seq : Nat) (data : PriceDataEntry) : Nat → Option PriceSnapshot
  | 0 => none
  | fuel + 1 =>
    let s1 := seq
    if s1 % 2 ≠ 0 then
      seqlock_read_loop seq data fuel
    else
      let bid := data.best_bid
      let ask := data.best_ask
      let ts := data.updated_at
      let s2 := seq
      if s1 = s2 then
        some { best_bid := bid, best_ask := ask, updated_at := ts }
      else
        seqlock_read_loop seq data fuel

/-- `seqlock_read(seq, data)` with no concurrent writer. -/
def seqlock_read (seq : Nat) (data : PriceDataEntry) : Option PriceSnapshot :=
  seqlock_read_loop seq data MAX_READ_RETRIES

/-- `read_seq_only(seq)`: load the sequence word. -/
def read_seq_only (seq : Nat) : Nat := seq

/-! ## SeqLock read against an arbitrary environment

For the retry-bound claim the reader runs against an adversarial
environment: attempt `i` observes the values `obs i` at its five load
points (first sequence load, the three data loads, second sequence
load).  This is exactly the loop body of `seqlock_read`, with the loads
replaced by the observed values. -/

/-- The values returned by the five loads of one read attempt. -/
structure ReadAttempt where
  s1 : Nat
  bid : Int
  ask : Int
  ts : Nat
  s2 : Nat

/-- One failing attempt: the first sequence load was odd, or the two
sequence loads disagreed. -/
def attemptFails (a : ReadAttempt) : Prop :=
  a.s1 % 2 = 1 ∨ (a.s1 % 2 = 0 ∧ a.s1 ≠ a.s2)

instance (a : ReadAttempt) : Decidable (attemptFails a) := by
  unfold attemptFails; infer_instance

/-- The retry loop of `seqlock_read` with attempt `i` observing `obs i`. -/
def seqlock_read_env_loop (obs : Nat → ReadAttempt) : Nat → Nat → Option PriceSnapshot
  | 0, _ => none
  | fuel + 1, i =>
    let a := obs i
    if a.s1 % 2 ≠ 0 then
      seqlock_read_env_loop obs fuel (i + 1)
    else if a.s1 = a.s2 then
      some { best_bid := a.bid, best_ask := a.ask, updated_at := a.ts }
    else
      seqlock_read_env_loop obs fuel (i + 1)

/-- `seqlock_read` against environment `obs`: at most `MAX_READ_RETRIES`
attempts, starting from attempt 0. -/
def seqlock_read_env (obs : Nat → ReadAttempt) : Option PriceSnapshot :=
  seqlock_read_env_loop obs MAX_READ_RETRIES 0

/-! ## Price Store (crates/shm/src/price_store.rs)

Two parallel byte regions (sequence counters and price data), each a
64-byte header followed by `MAX_SYMBOLS * NUM_SOURCES` 64-byte slots.
A region is modelled as a map from slot byte offset to slot contents;
a freshly created store is zero-filled by the segment manager (the
headers written by `create` occupy bytes 0..63, below every slot
offset, and are not part of any slot). -/

/-- `const HEADER_SIZE: usize = 64` -/
def HEADER_SIZE : Nat := 64

/-- `entries_size() = MAX_SYMBOLS * NUM_SOURCES * 64` -/
def entries_size : Nat := MAX_SYMBOLS * NUM_SOURCES * 64

/-- `total_size() = HEADER_SIZE + entries_size()` -/
def total_size : Nat := HEADER_SIZE + entries_size

/-- `PriceStore::slot_offset(symbol_id, source_id) =
HEADER_SIZE + (symbol_id * NUM_SOURCES + source_id) * 64`.
No bounds check is performed on either index. -/
def slot_offset (symbol_id source_id : Nat) : Nat :=
  HEADER_SIZE + (symbol_id * NUM_SOURCES + source_id) * 64

/-- The Price Store: the seq region and the data region, indexed by
slot byte offset. -/
structure PriceStore where
  seqs : Nat → Nat
  data : Nat → PriceDataEntry

/-- `PriceStore::create`: both regions are created zero-filled. -/
def PriceStore.create : PriceStore :=
  { seqs := fun _ => 0
    data := fun _ => { best_bid := 0, best_ask := 0, updated_at := 0 } }

/-- `PriceStore::write(symbol_id, source_id, snapshot)`: run
`seqlock_write` on the slot at `slot_offset symbol_id source_id`
(no bounds check). -/
def PriceStore.write (st : PriceStore) (symbol_id source_id : Nat)
    (snapshot : PriceSnapshot) : PriceStore :=
  let offset := slot_offset symbol_id source_id
  let w := seqlock_write (st.seqs offset) (st.data offset) snapshot
  { seqs := Function.update st.seqs offset w.1
    data := Function.update st.data offset w.2 }

/-- `PriceStore::read(symbol_id, source_id)`: run `seqlock_read` on the
slot at `slot_offset symbol_id source_id` (no bounds check). -/
def PriceStore.read (st : PriceStore) (symbol_id source_id : Nat) :
    Option PriceSnapshot :=
  let offset := slot_offset symbol_id source_id
  seqlock_read (st.seqs offset) (st.data offset)

/-- `PriceStore::read_seq(symbol_id, source_id)`: read only the sequence
word of the slot (no bounds check). -/
def PriceStore.read_seq (st : PriceStore) (symbol_id source_id : Nat) : Nat :=
  read_seq_only (st.seqs (slot_offset symbol_id source_id))

/-- A batch of sequential writes `(symbol_id, source_id, snapshot)`
applied in order to a store. -/
def PriceStore.applyWrites (st : PriceStore) :
    List (Nat × Nat × PriceSnapshot) → PriceStore
  | [] => st
  | (sym, src, snap) :: rest => (st.write sym src snap).applyWrites rest

/-- A sequence of writes to one fixed slot, applied in order. -/
def PriceStore.writeSeq (st : PriceStore) (symbol_id source_id : Nat) :
    List PriceSnapshot → PriceStore
  | [] => st
  | snap :: rest => (st.write symbol_id source_id snap).writeSeq symbol_id source_id rest

/-! ## Event Ring Buffer (crates/shm/src/ring_buffer.rs)

SPSC queue of 64-byte events.  Events are opaque 64-byte values copied
verbatim; they are modelled as `Nat`.  The u64 producer/consumer
counters are modelled as unbounded naturals: under the invariant
`consumer ≤ producer ≤ consumer + CAPACITY` the wrapping u64 subtraction
`prod_seq - cons_seq` equals the true distance and
`(prod_seq as usize) & MASK` equals `producer % CAPACITY` (CAPACITY
divides 2^64), so the unbounded model agrees with the u64 code on every
execution of fewer than 2^64 pushes. -/

/-- `const CAPACITY: usize = 64 * 1024` -/
def CAPACITY : Nat := 64 * 1024

/-- `const MASK: usize = CAPACITY - 1` -/
def MASK : Nat := CAPACITY - 1

/-- Ring buffer state: producer counter, consumer counter and the entry
array (indexed by masked position). -/
structure RingBuffer where
  producer : Nat
  consumer : Nat
  entries : Nat → Nat

/-- `RingBuffer::create`: zero-filled segment — both counters 0. -/
def RingBuffer.create : RingBuffer :=
  { producer := 0, consumer := 0, entries := fun _ => 0 }

/-- `RingBuffer::push(event)`: if `prod_seq - cons_seq >= CAPACITY` the
buffer is full — return `false` without mutating state; otherwise write
the event at `prod_seq & MASK` and advance the producer. -/
def RingBuffer.push (rb : RingBuffer) (event : Nat) : Bool × RingBuffer :=
  let prod_seq := rb.producer
  let cons_seq := rb.consumer
  if prod_seq - cons_seq ≥ CAPACITY then
    (false, rb)
  else
    (true, { rb with
      entries := Function.update rb.entries (prod_seq &&& MASK) event
      producer := prod_seq + 1 })

/-- `RingBuffer::pop()`: if `cons_seq >= prod_seq` the buffer is empty —
return `none`; otherwise read the event at `cons_seq & MASK` and advance
the consumer. -/
def RingBuffer.pop (rb : RingBuffer) : Option Nat × RingBuffer :=
  let cons_seq := rb.consumer
  let prod_seq := rb.producer
  if cons_seq ≥ prod_seq then
    (none, rb)
  else
    (some (rb.entries (cons_seq &&& MASK)), { rb with consumer := cons_seq + 1 })

/-- `RingBuffer::len()`: number of pending events. -/
def RingBuffer.len (rb : RingBuffer) : Nat := rb.producer - rb.consumer

/-- `RingBuffer::is_empty()`. -/
def RingBuffer.is_empty (rb : RingBuffer) : Bool := rb.len = 0

/-- Push a list of events in order; returns the final state and whether
every push succeeded. -/
def RingBuffer.pushAll (rb : RingBuffer) : List Nat → RingBuffer × Bool
  | [] => (rb, true)
  | e :: rest =>
    let r := rb.push e
    let rec' := r.2.pushAll rest
    (rec'.1, r.1 && rec'.2)

/-- The pending events, oldest first: the abstraction of the ring buffer
to a FIFO list. -/
def RingBuffer.toList (rb : RingBuffer) : List Nat :=
  (List.range (rb.producer - rb.consumer)).map
    (fun k => rb.entries ((rb.consumer + k) &&& MASK))

/-- Well-formedness: the consumer never passes the producer and at most
`CAPACITY` events are pending. -/
def RingBuffer.WF (rb : RingBuffer) : Prop :=
  rb.consumer ≤ rb.producer ∧ rb.producer ≤ rb.consumer + CAPACITY

/-! ## Update Bitmap (crates/shm/src/bitmap.rs)

Per-source 128-byte blocks of 16 u64 words; modelled as a map from
(source id, word index) to the word value. -/

/-- `const BLOCK_SIZE: usize = 128` -/
def BLOCK_SIZE : Nat := 128

/-- `const WORDS_PER_BLOCK: usize = BLOCK_SIZE / 8` -/
def WORDS_PER_BLOCK : Nat := BLOCK_SIZE / 8

/-- The bitmap: word value at each (source, word index). -/
structure UpdateBitmap where
  words : Nat → Nat → Nat

/-- `UpdateBitmap::create`: zero-filled segment. -/
def UpdateBitmap.create : UpdateBitmap :=
  { words := fun _ _ => 0 }

/-- `UpdateBitmap::set(source_id, symbol_id)`: atomically OR
`1 << (symbol_id % 64)` into word `symbol_id / 64` of the source's
block. -/
def UpdateBitmap.set (bm : UpdateBitmap) (source_id symbol_id : Nat) : UpdateBitmap :=
  let word_idx := symbol_id / 64
  let bit_idx := symbol_id % 64
  let mask := 1 <<< bit_idx
  { words := Function.update bm.words source_id
      (Function.update (bm.words source_id) word_idx
        (bm.words source_id word_idx ||| mask)) }

/-- `UpdateBitmap::swap_word(source_id, word_idx)`: atomically exchange
the word with 0 and return the old value. -/
def UpdateBitmap.swap_word (bm : UpdateBitmap) (source_id word_idx : Nat) :
    Nat × UpdateBitmap :=
  (bm.words source_id word_idx,
   { words := Function.update bm.words source_id
       (Function.update (bm.words source_id) word_idx 0) })

/-- `UpdateBitmap::has_updates(source_id)`: scan the source's
`WORDS_PER_BLOCK` words, true iff any is nonzero. -/
def UpdateBitmap.has_updates (bm : UpdateBitmap) (source_id : Nat) : Bool :=
  (List.range WORDS_PER_BLOCK).any (fun w => bm.words source_id w != 0)

/-! ## Control Store (crates/shm/src/control.rs) -/

/-- `ControlLayout`: three atomic booleans and a u64 config version
(padding omitted: never read or written). -/
structure ControlStore where
  global_pause : Bool
  kill_switch : Bool
  shutdown : Bool
  config_version : Nat

/-- `ControlStore::create`: zero-filled segment — all flags false,
version 0. -/
def ControlStore.create : ControlStore :=
  { global_pause := false, kill_switch := false, shutdown := false
    config_version := 0 }

/-- `ControlStore::is_paused()`. -/
def ControlStore.is_paused (c : ControlStore) : Bool := c.global_pause

/-- `ControlStore::set_pause(paused)`. -/
def ControlStore.set_pause (c : ControlStore) (paused : Bool) : ControlStore :=
  { c with global_pause := paused }

/-- `ControlStore::is_killed()`. -/
def ControlStore.is_killed (c : ControlStore) : Bool := c.kill_switch

/-- `ControlStore::set_kill_switch(killed)`. -/
def ControlStore.set_kill_switch (c : ControlStore) (killed : Bool) : ControlStore :=
  { c with kill_switch := killed }

/-- `ControlStore::is_shutdown()`. -/
def ControlStore.is_shutdown (c : ControlStore) : Bool := c.shutdown

/-- `ControlStore::set_shutdown(shutdown)`. -/
def ControlStore.set_shutdown (c : ControlStore) (sd : Bool) : ControlStore :=
  { c with shutdown := sd }

/-- `ControlStore::config_version()` getter. -/
def ControlStore.get_config_version (c : ControlStore) : Nat := c.config_version

/-- `ControlStore::set_config_version(version)`. -/
def ControlStore.set_config_version (c : ControlStore) (version : Nat) : ControlStore :=
  { c with config_version := version % U64 }

/-- `ControlStore::increment_config_version()`: u64 fetch-add of 1,
returning the fetched value plus 1 — the new value. -/
def ControlStore.increment_config_version (c : ControlStore) : Nat × ControlStore :=
  let old := c.config_version
  ((old + 1) % U64, { c with config_version := (old + 1) % U64 })

/-- `ControlStore::should_stop()`: `is_killed() || is_shutdown()`. -/
def ControlStore.should_stop (c : ControlStore) : Bool :=
  c.is_killed || c.is_shutdown

/-- `increment_config_version` iterated `n` times (discarding the
returned values). -/
def ControlStore.incrementN (c : ControlStore) : Nat → ControlStore
  | 0 => c
  | n + 1 => (c.increment_config_version).2.incrementN n

/-! ## Health Table (crates/shm/src/health.rs)

16 slots of atomic fields.  `slot()` asserts `slot_id < NUM_SLOTS` in
the source; the theorems below only exercise in-range slots, so the
model keeps the state total over `Nat` slot ids. -/

/-- `const NUM_SLOTS: usize = 16` -/
def NUM_SLOTS : Nat := 16

/-- `ProcessStatus`: 0=unknown, 1=starting, 2=running, 3=degraded,
4=stopped. -/
inductive ProcessStatus where
  | unknown
  | starting
  | running
  | degraded
  | stopped
  deriving DecidableEq, Repr

/-- The `status as u8` discriminant values. -/
def ProcessStatus.toU8 : ProcessStatus → Nat
  | .unknown => 0
  | .starting => 1
  | .running => 2
  | .degraded => 3
  | .stopped => 4

/-- `ProcessStatus::from_u8`: unknown numeric values map to `Unknown`. -/
def ProcessStatus.from_u8 (v : Nat) : ProcessStatus :=
  match v with
  | 1 => .starting
  | 2 => .running
  | 3 => .degraded
  | 4 => .stopped
  | _ => .unknown

/-- `HealthSlot`: the atomic fields of one 64-byte slot (padding
omitted). -/
structure HealthSlot where
  status : Nat
  heartbeat_us : Nat
  msg_count : Nat
  error_count : Nat
  ws_connections : Nat
  uptime_sec : Nat
  deriving DecidableEq, Repr

/-- `HealthSnapshot`: non-atomic copy of a slot, as read by `read`. -/
structure HealthSnapshot where
  status : ProcessStatus
  heartbeat_us : Nat
  msg_count : Nat
  error_count : Nat
  ws_connections : Nat
  uptime_sec : Nat
  deriving DecidableEq, Repr

/-- The health table: slot contents per slot id. -/
structure HealthTable where
  slots : Nat → HealthSlot

/-- `HealthTable::create`: zero-filled segment. -/
def HealthTable.create : HealthTable :=
  { slots := fun _ =>
      { status := 0, heartbeat_us := 0, msg_count := 0, error_count := 0
        ws_connections := 0, uptime_sec := 0 } }

/-- `HealthTable::heartbeat(slot_id, timestamp_us)`. -/
def HealthTable.heartbeat (t : HealthTable) (slot_id timestamp_us : Nat) : HealthTable :=
  { slots := Function.update t.slots slot_id
      { t.slots slot_id with heartbeat_us := timestamp_us } }

/-- `HealthTable::set_status(slot_id, status)`. -/
def HealthTable.set_status (t : HealthTable) (slot_id : Nat) (status : ProcessStatus) :
    HealthTable :=
  { slots := Function.update t.slots slot_id
      { t.slots slot_id with status := status.toU8 } }

/-- `HealthTable::inc_msg_count(slot_id)`: u64 fetch-add of 1. -/
def HealthTable.inc_msg_count (t : HealthTable) (slot_id : Nat) : HealthTable :=
  { slots := Function.update t.slots slot_id
      { t.slots slot_id with msg_count := ((t.slots slot_id).msg_count + 1) % U64 } }

/-- `HealthTable::inc_error_count(slot_id)`: u32 fetch-add of 1. -/
def HealthTable.inc_error_count (t : HealthTable) (slot_id : Nat) : HealthTable :=
  { slots := Function.update t.slots slot_id
      { t.slots slot_id with error_count := ((t.slots slot_id).error_count + 1) % U32 } }

/-- `HealthTable::set_ws_connections(slot_id, count)`. -/
def HealthTable.set_ws_connections (t : HealthTable) (slot_id count : Nat) : HealthTable :=
  { slots := Function.update t.slots slot_id
      { t.slots slot_id with ws_connections := count } }

/-- `HealthTable::set_uptime(slot_id, sec)`. -/
def HealthTable.set_uptime (t : HealthTable) (slot_id sec : Nat) : HealthTable :=
  { slots := Function.update t.slots slot_id
      { t.slots slot_id with uptime_sec := sec } }

/-- `HealthTable::read(slot_id)`: snapshot of a slot. -/
def HealthTable.read (t : HealthTable) (slot_id : Nat) : HealthSnapshot :=
  let s := t.slots slot_id
  { status := ProcessStatus.from_u8 s.status
    heartbeat_us := s.heartbeat_us
    msg_count := s.msg_count
    error_count := s.error_count
    ws_connections := s.ws_connections
    uptime_sec := s.uptime_sec }

/-- One writer-side Health Table operation, tagged with its target
slot. -/
inductive HealthOp where
  | setStatus (slot_id : Nat) (status : ProcessStatus)
  | heartbeat (slot_id timestamp_us : Nat)
  | incMsgCount (slot_id : Nat)
  | incErrorCount (slot_id : Nat)
  | setWsConnections (slot_id count : Nat)
  | setUptime (slot_id sec : Nat)
  deriving DecidableEq, Repr

/-- The slot an operation targets. -/
def HealthOp.slot_id : HealthOp → Nat
  | .setStatus s _ => s
  | .heartbeat s _ => s
  | .incMsgCount s => s
  | .incErrorCount s => s
  | .setWsConnections s _ => s
  | .setUptime s _ => s

/-- Apply one writer-side operation. -/
def HealthTable.applyOp (t : HealthTable) : HealthOp → HealthTable
  | .setStatus s st => t.set_status s st
  | .heartbeat s ts => t.heartbeat s ts
  | .incMsgCount s => t.inc_msg_count s
  | .incErrorCount s => t.inc_error_count s
  | .setWsConnections s c => t.set_ws_connections s c
  | .setUptime s sec => t.set_uptime s sec

/-- Apply a sequence of writer-side operations in order. -/
def HealthTable.applyOps (t : HealthTable) : List HealthOp → HealthTable
  | [] => t
  | op :: rest => (t.applyOp op).applyOps rest

/-! ## Concurrent SeqLock: explicit interleaving of one writer and one reader

Small-step model of `seqlock_write` (one writer looping forever) and
`seqlock_read` (one reader sampling forever) on a single slot, with one
shared-memory load or store per step.  A schedule (list of booleans —
`true` schedules the writer, `false` the reader) fixes the interleaving;
all schedules are quantified over.  Fences and orderings are no-ops in
this sequentially-consistent abstraction.  Write `i` publishes the
snapshot `(val i, val i + 1, tsv i)` — ask = bid + 1, as in the torn-read
property.  The reader keeps every successfully returned snapshot in
`results`; a `None` (retries exhausted) returns nothing and so adds
nothing. -/

/-- Writer program counter, one state per shared-memory access of
`seqlock_write` (the volatile data stores in program order). -/
inductive WriterPC where
  | loadSeq
  | storeOdd
  | writeBid
  | writeAsk
  | writeTs
  | storeEven
  deriving DecidableEq, Repr

/-- Reader program counter, one state per shared-memory access of one
`seqlock_read` attempt. -/
inductive ReaderPC where
  | loadS1
  | readBid
  | readAsk
  | readTs
  | loadS2
  deriving DecidableEq, Repr

/-- Shared slot plus the local state of the writer and of the reader. -/
structure ConcState where
  seq : Nat
  bid : Int
  ask : Int
  ts : Nat
  wpc : WriterPC
  wcur : Nat
  wi : Nat
  rpc : ReaderPC
  s1 : Nat
  rbid : Int
  rask : Int
  rts : Nat
  results : List (Int × Int × Nat)

/-- One writer step: the next shared-memory access of `seqlock_write`,
writing snapshot `wi` = `(val wi, val wi + 1, tsv wi)`, then looping. -/
def writerStep (val : Nat → Int) (tsv : Nat → Nat) (σ : ConcState) : ConcState :=
  match σ.wpc with
  | .loadSeq => { σ with wcur := σ.seq, wpc := .storeOdd }
  | .storeOdd => { σ with seq := (σ.wcur + 1) % U64, wpc := .writeBid }
  | .writeBid => { σ with bid := val σ.wi, wpc := .writeAsk }
  | .writeAsk => { σ with ask := val σ.wi + 1, wpc := .writeTs }
  | .writeTs => { σ with ts := tsv σ.wi, wpc := .storeEven }
  | .storeEven => { σ with seq := (σ.wcur + 2) % U64, wpc := .loadSeq, wi := σ.wi + 1 }

/-- One reader step: the next shared-memory access of `seqlock_read`.
An odd first sequence load spins back to the start of the attempt; a
final sequence load equal to the first returns the snapshot (recorded in
`results`), otherwise the attempt is retried. -/
def readerStep (σ : ConcState) : ConcState :=
  match σ.rpc with
  | .loadS1 =>
    let s1 := σ.seq
    if s1 % 2 ≠ 0 then { σ with rpc := .loadS1 }
    else { σ with s1 := s1, rpc := .readBid }
  | .readBid => { σ with rbid := σ.bid, rpc := .readAsk }
  | .readAsk => { σ with rask := σ.ask, rpc := .readTs }
  | .readTs => { σ with rts := σ.ts, rpc := .loadS2 }
  | .loadS2 =>
    let s2 := σ.seq
    if σ.s1 = s2 then
      { σ with results := (σ.rbid, σ.rask, σ.rts) :: σ.results, rpc := .loadS1 }
    else { σ with rpc := .loadS1 }

/-- Run a schedule: `true` steps the writer, `false` steps the reader. -/
def runSched (val : Nat → Int) (tsv : Nat → Nat) (sched : List Bool)
    (σ : ConcState) : ConcState :=
  sched.foldl (fun s b => if b then writerStep val tsv s else readerStep s) σ

/-- Initial state: the slot is stable (sequence 0, even) and holds one
coherent snapshot `(b, b + 1, t0)` — the writer runs continuously, so
every stable slot contents has ask = bid + 1; the writer is at the top
of its loop about to publish write 0, the reader at the top of an
attempt. -/
def initConcState (b : Int) (t0 : Nat) : ConcState :=
  { seq := 0, bid := b, ask := b + 1, ts := t0
    wpc := .loadSeq, wcur := 0, wi := 0
    rpc := .loadS1, s1 := 0, rbid := 0, rask := 0, rts := 0
    results := [] }

/-- Whether the writer is between its odd store and its even store
(exclusive of the former's start, inclusive of the latter's). -/
def WriterPC.writing : WriterPC → Bool
  | .loadSeq => false
  | .storeOdd => false
  | .writeBid => true
  | .writeAsk => true
  | .writeTs => true
  | .storeEven => true

/-- Ghost (unwrapped) sequence counter: two increments per completed
write, one of them pending while the writer is mid-write. -/
def gseq (σ : ConcState) : Nat :=
  2 * σ.wi + (if σ.wpc.writing then 1 else 0)

/-- Writer-side invariant: the shared sequence word is the wrapped ghost
counter; outside the writing phase the slot data is coherent
(ask = bid + 1); within it the loaded `current` value is remembered and
the already-written fields are known. -/
def WInv (val : Nat → Int) (σ : ConcState) : Prop :=
  σ.seq = gseq σ % U64 ∧
  (σ.wpc = .loadSeq → σ.ask = σ.bid + 1) ∧
  (σ.wpc = .storeOdd → σ.ask = σ.bid + 1 ∧ σ.wcur = σ.seq) ∧
  (σ.wpc = .writeBid → σ.wcur = (2 * σ.wi) % U64) ∧
  (σ.wpc = .writeAsk → σ.bid = val σ.wi ∧ σ.wcur = (2 * σ.wi) % U64) ∧
  (σ.wpc = .writeTs →
    σ.bid = val σ.wi ∧ σ.ask = val σ.wi + 1 ∧ σ.wcur = (2 * σ.wi) % U64) ∧
  (σ.wpc = .storeEven → σ.ask = σ.bid + 1 ∧ σ.wcur = (2 * σ.wi) % U64)

/-- Reader-side invariant: past the first sequence load of the current
attempt there is a ghost value `g1` behind the loaded `s1`; it is even,
no later than the current ghost counter, and — if the ghost counter has
not moved — the values read so far all come from the stable snapshot. -/
def RInv (σ : ConcState) : Prop :=
  (σ.rpc = .readBid → ∃ g1, σ.s1 = g1 % U64 ∧ g1 % 2 = 0 ∧ g1 ≤ gseq σ ∧
      (g1 = gseq σ → σ.ask = σ.bid + 1)) ∧
  (σ.rpc = .readAsk → ∃ g1, σ.s1 = g1 % U64 ∧ g1 % 2 = 0 ∧ g1 ≤ gseq σ ∧
      (g1 = gseq σ → σ.rbid = σ.bid ∧ σ.ask = σ.bid + 1)) ∧
  (σ.rpc = .readTs → ∃ g1, σ.s1 = g1 % U64 ∧ g1 % 2 = 0 ∧ g1 ≤ gseq σ ∧
      (g1 = gseq σ → σ.rask = σ.rbid + 1)) ∧
  (σ.rpc = .loadS2 → ∃ g1, σ.s1 = g1 % U64 ∧ g1 % 2 = 0 ∧ g1 ≤ gseq σ ∧
      (g1 = gseq σ → σ.rask = σ.rbid + 1))

/-- Every snapshot the reader has returned is coherent. -/
def GoodResults (σ : ConcState) : Prop :=
  ∀ r ∈ σ.results, r.2.1 = r.1 + 1

/-- The full inductive invariant of the writer/reader system. -/
def ConcInv (val : Nat → Int) (σ : ConcState) : Prop :=
  WInv val σ ∧ RInv σ ∧ GoodResults σ

/-! ## Theorems -/

theorem ControlStore.incrementN_config_version (n : Nat) :
    ∀ c : ControlStore, c.config_version < U64 →
      (c.incrementN n).config_version = (c.config_version + n) % U64 := by
  induction n with
  | zero =>
    intro c hc
    simp [ControlStore.incrementN]
    exact (Nat.mod_eq_of_lt hc).symm
  | succ n ih =>
    intro c hc
    simp only [ControlStore.incrementN, ControlStore.increment_config_version]
    rw [ih _ (Nat.mod_lt _ (by norm_num [U64]))]
    rw [Nat.mod_add_mod]
    congr 1
    omega

/-- Claim C7: a freshly created Control Store has pause = false,
kill = false, shutdown = false and config_version = 0; the (n+1)-st
`increment_config_version` from a fresh store returns n + 1 (so
successive calls return 1, 2, 3, ... while the u64 counter does not
wrap); `should_stop()` is true iff the kill flag or the shutdown flag
is true; and each flag setter touches only its own flag and can set and
clear it. -/
theorem spec_c7_control_defaults :
    (ControlStore.create.is_paused = false ∧ ControlStore.create.is_killed = false ∧
     ControlStore.create.is_shutdown = false ∧ ControlStore.create.get_config_version = 0) ∧
    (∀ n : Nat, n + 1 < U64 →
      ((ControlStore.create.incrementN n).increment_config_version).1 = n + 1) ∧
    (∀ c : ControlStore, c.should_stop = true ↔ (c.is_killed = true ∨ c.is_shutdown = true)) ∧
    (∀ (c : ControlStore) (b : Bool),
      ((c.set_kill_switch b).is_killed = b ∧
       (c.set_kill_switch b).is_shutdown = c.is_shutdown ∧
       (c.set_kill_switch b).is_paused = c.is_paused ∧
       (c.set_kill_switch b).get_config_version = c.get_config_version) ∧
      ((c.set_shutdown b).is_shutdown = b ∧
       (c.set_shutdown b).is_killed = c.is_killed ∧
       (c.set_shutdown b).is_paused = c.is_paused ∧
       (c.set_shutdown b).get_config_version = c.get_config_version) ∧
      ((c.set_pause b).is_paused = b ∧
       (c.set_pause b).is_killed = c.is_killed ∧
       (c.set_pause b).is_shutdown = c.is_shutdown ∧
       (c.set_pause b).get_config_version = c.get_config_version)) := by
  refine ⟨by decide, ?_, ?_, ?_⟩
  · intro n hn
    have h0 : ControlStore.create.config_version < U64 := by
      norm_num [ControlStore.create, U64]
    have hv := ControlStore.incrementN_config_version n ControlStore.create h0
    simp only [ControlStore.increment_config_version, hv]
    have hz : ControlStore.create.config_version = 0 := rfl
    rw [hz, Nat.zero_add, Nat.mod_add_mod]
    exact Nat.mod_eq_of_lt hn
  · intro c
    simp [ControlStore.should_stop, ControlStore.is_killed, ControlStore.is_shutdown,
      Bool.or_eq_true]
  · intro c b
    simp [ControlStore.set_kill_switch, ControlStore.set_shutdown, ControlStore.set_pause,
      ControlStore.is_killed, ControlStore.is_shutdown, ControlStore.is_paused,
      ControlStore.get_config_version]

theorem spec_c7_control_defaults_witness :
    2 + 1 < U64 ∧
    ((ControlStore.create.incrementN 2).increment_config_version).1 = 2 + 1 :=
  ⟨by norm_num [U64], spec_c7_control_defaults.2.1 2 (by norm_num [U64])⟩

/-- Claim C6: on a fresh bitmap, `set(source, 63)` sets bit 63 of word 0
and `set(source, 64)` sets bit 0 of word 1 of that source's block;
`swap_word(source, 0)` then returns exactly `1 <<< 63` and
`swap_word(source, 1)` returns exactly `1 <<< 0`, each swap zeroes its
word, and after both swaps `has_updates(source)` is false. -/
theorem spec_c6_bitmap_boundary :
    ∀ source_id : Nat, source_id < NUM_SOURCES →
    ((UpdateBitmap.create.set source_id 63).words source_id 0 = 1 <<< 63) ∧
    (((UpdateBitmap.create.set source_id 63).set source_id 64).words source_id 1 = 1 <<< 0) ∧
    ((((UpdateBitmap.create.set source_id 63).set source_id 64).swap_word source_id 0).1
       = 1 <<< 63) ∧
    ((((UpdateBitmap.create.set source_id 63).set source_id 64).swap_word
        source_id 0).2.words source_id 0 = 0) ∧
    (((((UpdateBitmap.create.set source_id 63).set source_id 64).swap_word
        source_id 0).2.swap_word source_id 1).1 = 1 <<< 0) ∧
    (((((UpdateBitmap.create.set source_id 63).set source_id 64).swap_word
        source_id 0).2.swap_word source_id 1).2.words source_id 1 = 0) ∧
    (((((UpdateBitmap.create.set source_id 63).set source_id 64).swap_word
        source_id 0).2.swap_word source_id 1).2.has_updates source_id = false) := by
  intro source_id _
  refine ⟨?_, ?_, ?_, ?_, ?_, ?_, ?_⟩ <;>
    simp [UpdateBitmap.create, UpdateBitmap.set, UpdateBitmap.swap_word,
      UpdateBitmap.has_updates, WORDS_PER_BLOCK, BLOCK_SIZE, Function.update,
      List.range_succ]

theorem spec_c6_bitmap_boundary_witness :
    (0 : Nat) < NUM_SOURCES ∧
    ((((UpdateBitmap.create.set 0 63).set 0 64).swap_word
        0 0).2.swap_word 0 1).2.has_updates 0 = false :=
  ⟨by decide, (spec_c6_bitmap_boundary 0 (by decide)).2.2.2.2.2.2⟩

theorem HealthTable.applyOp_frame (t : HealthTable) (op : HealthOp) (j : Nat)
    (h : op.slot_id ≠ j) : (t.applyOp op).slots j = t.slots j := by
  cases op <;>
    simp only [HealthTable.applyOp, HealthOp.slot_id, HealthTable.set_status,
      HealthTable.heartbeat, HealthTable.inc_msg_count, HealthTable.inc_error_count,
      HealthTable.set_ws_connections, HealthTable.set_uptime] at h ⊢ <;>
    exact Function.update_noteq (Ne.symm h) _ _

theorem HealthTable.applyOps_frame :
    ∀ (ops : List HealthOp) (t : HealthTable) (j : Nat),
      (∀ op ∈ ops, op.slot_id ≠ j) → (t.applyOps ops).slots j = t.slots j := by
  intro ops
  induction ops with
  | nil => intro t j _; simp [HealthTable.applyOps]
  | cons op rest ih =>
    intro t j h
    simp only [HealthTable.applyOps]
    rw [ih _ _ (fun o ho => h o (List.mem_cons_of_mem _ ho))]
    exact HealthTable.applyOp_frame t op j (h op (List.mem_cons_self _ _))

/-- Claim C8: every writer-side Health Table operation on slot 0 leaves
slot 1 untouched — after any sequence of such operations on a fresh
table, `read(1)` still returns the default snapshot (Unknown status,
zero heartbeat, zero counters, zero connections, zero uptime). -/
theorem spec_c8_health_isolation (ops : List HealthOp)
    (h : ∀ op ∈ ops, op.slot_id = 0) :
    (HealthTable.create.applyOps ops).read 1 =
      { status := .unknown, heartbeat_us := 0, msg_count := 0, error_count := 0,
        ws_connections := 0, uptime_sec := 0 } := by
  have hframe := HealthTable.applyOps_frame ops HealthTable.create 1
    (fun op ho => by simp [h op ho])
  simp only [HealthTable.read, hframe]
  simp [HealthTable.create, ProcessStatus.from_u8]

theorem spec_c8_health_isolation_witness :
    (∀ op ∈ [HealthOp.setStatus 0 .running, HealthOp.heartbeat 0 1234567890,
             HealthOp.incMsgCount 0, HealthOp.incErrorCount 0,
             HealthOp.setWsConnections 0 3, HealthOp.setUptime 0 60],
       op.slot_id = 0) ∧
    (HealthTable.create.applyOps
        [HealthOp.setStatus 0 .running, HealthOp.heartbeat 0 1234567890,
         HealthOp.incMsgCount 0, HealthOp.incErrorCount 0,
         HealthOp.setWsConnections 0 3, HealthOp.setUptime 0 60]).read 1 =
      { status := .unknown, heartbeat_us := 0, msg_count := 0, error_count := 0,
        ws_connections := 0, uptime_sec := 0 } :=
  ⟨by decide, spec_c8_health_isolation _ (by decide)⟩

/-- Claim C9: `slot_offset` is not bounds-checked; for in-range indices
the 64-byte slot at the computed offset lies inside the segment and
distinct in-range pairs get distinct slots, while `symbol_id =
MAX_SYMBOLS` (representable in u16) yields a slot extending past the
segment end — and `read`/`write` nevertheless proceed at such an
out-of-range index. -/
theorem spec_c9_no_bounds_check :
    (∀ symbol_id source_id : Nat, symbol_id < MAX_SYMBOLS → source_id < NUM_SOURCES →
       slot_offset symbol_id source_id + 64 ≤ total_size) ∧
    (∀ sa ra sb rb : Nat, sa < MAX_SYMBOLS → ra < NUM_SOURCES →
       sb < MAX_SYMBOLS → rb < NUM_SOURCES →
       slot_offset sa ra = slot_offset sb rb → sa = sb ∧ ra = rb) ∧
    (MAX_SYMBOLS < 2 ^ 16 ∧ total_size < slot_offset MAX_SYMBOLS 0 + 64) ∧
    (∀ snapshot : PriceSnapshot,
       (PriceStore.create.write MAX_SYMBOLS 0 snapshot).read MAX_SYMBOLS 0
         = some snapshot) := by
  refine ⟨?_, ?_, ?_, ?_⟩
  · intro sym src h1 h2
    simp only [slot_offset, total_size, entries_size, HEADER_SIZE, MAX_SYMBOLS,
      NUM_SOURCES] at *
    omega
  · intro sa ra sb rb h1 h2 h3 h4 heq
    simp only [slot_offset, MAX_SYMBOLS, NUM_SOURCES, HEADER_SIZE] at *
    omega
  · constructor
    · decide
    · decide
  · intro snap
    simp [PriceStore.write, PriceStore.read, seqlock_write, seqlock_read,
      MAX_READ_RETRIES, seqlock_read_loop, Function.update, PriceStore.create, U64]

theorem spec_c9_no_bounds_check_witness :
    (1023 : Nat) < MAX_SYMBOLS ∧ (7 : Nat) < NUM_SOURCES ∧
    slot_offset 1023 7 + 64 ≤ total_size :=
  ⟨by decide, by decide, spec_c9_no_bounds_check.1 1023 7 (by decide) (by decide)⟩

theorem dvd_two_u64 : (2 : Nat) ∣ U64 := by norm_num [U64]

theorem PriceStore.read_after_write (st : PriceStore) (symbol_id source_id : Nat)
    (snapshot : PriceSnapshot)
    (h : st.seqs (slot_offset symbol_id source_id) % 2 = 0) :
    (st.write symbol_id source_id snapshot).read symbol_id source_id = some snapshot := by
  have hpar : ((st.seqs (slot_offset symbol_id source_id) + 2) % U64) % 2 = 0 := by
    rw [Nat.mod_mod_of_dvd _ dvd_two_u64]
    omega
  simp [PriceStore.write, PriceStore.read, seqlock_write, seqlock_read,
    MAX_READ_RETRIES, seqlock_read_loop, Function.update, hpar]

theorem PriceStore.applyWrites_seqs_even :
    ∀ (ops : List (Nat × Nat × PriceSnapshot)) (st : PriceStore),
      (∀ off, st.seqs off % 2 = 0) →
      ∀ off, (st.applyWrites ops).seqs off % 2 = 0 := by
  intro ops
  induction ops with
  | nil => intro st h off; simpa [PriceStore.applyWrites] using h off
  | cons op rest ih =>
    intro st h off
    obtain ⟨sym, src, snap⟩ := op
    refine ih _ (fun o => ?_) off
    simp only [PriceStore.write, seqlock_write]
    rcases eq_or_ne o (slot_offset sym src) with he | hne
    · subst he
      rw [Function.update_same, Nat.mod_mod_of_dvd _ dvd_two_u64]
      have := h (slot_offset sym src)
      omega
    · rw [Function.update_noteq hne]
      exact h o

/-- Claim C2: for every in-range `(symbol_id, source_id)` and any store
reachable from a fresh store by sequential writes, `write(snapshot)`
followed immediately by `read()` (no concurrent writer) returns `some`
of exactly the written snapshot. -/
theorem spec_c2_round_trip (ops : List (Nat × Nat × PriceSnapshot))
    (symbol_id source_id : Nat) (snapshot : PriceSnapshot)
    (_h1 : symbol_id < MAX_SYMBOLS) (_h2 : source_id < NUM_SOURCES) :
    ((PriceStore.create.applyWrites ops).write symbol_id source_id snapshot).read
        symbol_id source_id = some snapshot :=
  PriceStore.read_after_write _ _ _ _
    (PriceStore.applyWrites_seqs_even ops PriceStore.create
      (fun _ => by simp [PriceStore.create]) _)

theorem spec_c2_round_trip_witness :
    (0 : Nat) < MAX_SYMBOLS ∧ (0 : Nat) < NUM_SOURCES ∧
    ((PriceStore.create.applyWrites []).write 0 0
        { best_bid := 50000, best_ask := 50001, updated_at := 12345 }).read 0 0
      = some { best_bid := 50000, best_ask := 50001, updated_at := 12345 } :=
  ⟨by decide, by decide,
   spec_c2_round_trip [] 0 0 _ (by decide) (by decide)⟩

/-- Claim C3 as stated is false: on a fresh store, reading the
never-written in-range slot (1, 0) does return `some` of the all-zeros
snapshot, but that snapshot is NOT valid under the `PriceSnapshot`
validity predicate — `is_valid` requires `best_bid > 0` and
`best_ask > 0`, which 0 fails. -/
theorem spec_c3_counterexample :
    PriceStore.create.read 1 0
      = some { best_bid := 0, best_ask := 0, updated_at := 0 } ∧
    PriceSnapshot.is_valid { best_bid := 0, best_ask := 0, updated_at := 0 } = false := by
  constructor
  · simp [PriceStore.read, PriceStore.create, seqlock_read, MAX_READ_RETRIES,
      seqlock_read_loop]
  · decide

/-- Claim C3, amended: on a fresh store, reading any in-range
never-written slot returns `some` of the all-zeros snapshot (the
sequence counter starts at 0, which is even/stable) rather than `none`
— but the all-zeros snapshot is invalid under the spec's validity
predicate (`best_bid > 0 ∧ best_ask > 0 ∧ best_bid ≤ best_ask`). -/
theorem spec_c3_amended (symbol_id source_id : Nat)
    (_h1 : symbol_id < MAX_SYMBOLS) (_h2 : source_id < NUM_SOURCES) :
    PriceStore.create.read symbol_id source_id
      = some { best_bid := 0, best_ask := 0, updated_at := 0 } ∧
    PriceSnapshot.is_valid { best_bid := 0, best_ask := 0, updated_at := 0 } = false := by
  constructor
  · simp [PriceStore.read, PriceStore.create, seqlock_read, MAX_READ_RETRIES,
      seqlock_read_loop]
  · decide

theorem spec_c3_amended_witness :
    (2 : Nat) < MAX_SYMBOLS ∧ (3 : Nat) < NUM_SOURCES ∧
    (PriceStore.create.read 2 3
       = some { best_bid := 0, best_ask := 0, updated_at := 0 } ∧
     PriceSnapshot.is_valid { best_bid := 0, best_ask := 0, updated_at := 0 } = false) :=
  ⟨by decide, by decide, spec_c3_amended 2 3 (by decide) (by decide)⟩

theorem PriceStore.write_read_seq (st : PriceStore) (symbol_id source_id : Nat)
    (snapshot : PriceSnapshot) :
    (st.write symbol_id source_id snapshot).read_seq symbol_id source_id
      = (st.read_seq symbol_id source_id + 2) % U64 := by
  simp [PriceStore.write, PriceStore.read_seq, read_seq_only, seqlock_write,
    Function.update_same]

theorem PriceStore.writeSeq_read_seq (symbol_id source_id : Nat) :
    ∀ (snaps : List PriceSnapshot) (st : PriceStore),
      st.read_seq symbol_id source_id < U64 →
      (st.writeSeq symbol_id source_id snaps).read_seq symbol_id source_id
        = (st.read_seq symbol_id source_id + 2 * snaps.length) % U64 := by
  intro snaps
  induction snaps with
  | nil =>
    intro st h
    simp [PriceStore.writeSeq, Nat.mod_eq_of_lt h]
  | cons snap rest ih =>
    intro st h
    simp only [PriceStore.writeSeq]
    have hlt : (st.write symbol_id source_id snap).read_seq symbol_id source_id < U64 := by
      rw [PriceStore.write_read_seq]
      exact Nat.mod_lt _ (by norm_num [U64])
    rw [ih _ hlt, PriceStore.write_read_seq, Nat.mod_add_mod]
    congr 1
    simp only [List.length_cons]
    ring

/-- Claim C10: each completed `seqlock_write` advances the slot's
sequence counter by exactly 2 (mod 2^64) and preserves its parity, so a
slot starting at 0 is even whenever no write is in progress; after `n`
sequential completed writes `read_seq` returns `2 * n` (as long as the
u64 counter has not wrapped), and it is even in every case. -/
theorem spec_c10_seq_increment :
    (∀ (st : PriceStore) (symbol_id source_id : Nat) (snapshot : PriceSnapshot),
       (st.write symbol_id source_id snapshot).read_seq symbol_id source_id
         = (st.read_seq symbol_id source_id + 2) % U64) ∧
    (∀ (st : PriceStore) (symbol_id source_id : Nat) (snapshot : PriceSnapshot),
       (st.write symbol_id source_id snapshot).read_seq symbol_id source_id % 2
         = st.read_seq symbol_id source_id % 2) ∧
    (∀ (snaps : List PriceSnapshot) (symbol_id source_id : Nat),
       (PriceStore.create.writeSeq symbol_id source_id snaps).read_seq symbol_id source_id
          = (2 * snaps.length) % U64 ∧
       (PriceStore.create.writeSeq symbol_id source_id snaps).read_seq symbol_id
          source_id % 2 = 0 ∧
       (2 * snaps.length < U64 →
         (PriceStore.create.writeSeq symbol_id source_id snaps).read_seq symbol_id source_id
           = 2 * snaps.length)) := by
  have hmain : ∀ (snaps : List PriceSnapshot) (symbol_id source_id : Nat),
      (PriceStore.create.writeSeq symbol_id source_id snaps).read_seq symbol_id source_id
        = (2 * snaps.length) % U64 := by
    intro snaps sym src
    have h0 : PriceStore.create.read_seq sym src = 0 := rfl
    rw [PriceStore.writeSeq_read_seq sym src snaps PriceStore.create
        (by rw [h0]; norm_num [U64]), h0, Nat.zero_add]
  refine ⟨fun st sym src snap => PriceStore.write_read_seq st sym src snap,
          ?_, ?_⟩
  · intro st sym src snap
    rw [PriceStore.write_read_seq, Nat.mod_mod_of_dvd _ dvd_two_u64]
    omega
  · intro snaps sym src
    refine ⟨hmain snaps sym src, ?_, ?_⟩
    · rw [hmain snaps sym src, Nat.mod_mod_of_dvd _ dvd_two_u64]
      omega
    · intro hlt
      rw [hmain snaps sym src]
      exact Nat.mod_eq_of_lt hlt

theorem spec_c10_seq_increment_witness :
    2 * 3 < U64 ∧
    (PriceStore.create.writeSeq 0 0
        [{ best_bid := 1, best_ask := 2, updated_at := 0 },
         { best_bid := 3, best_ask := 4, updated_at := 1 },
         { best_bid := 5, best_ask := 6, updated_at := 2 }]).read_seq 0 0 = 2 * 3 :=
  ⟨by norm_num [U64],
   (spec_c10_seq_increment.2.2
      [{ best_bid := 1, best_ask := 2, updated_at := 0 },
       { best_bid := 3, best_ask := 4, updated_at := 1 },
       { best_bid := 5, best_ask := 6, updated_at := 2 }] 0 0).2.2
     (by norm_num [U64])⟩

theorem seqlock_read_env_loop_none_iff :
    ∀ (fuel i : Nat) (obs : Nat → ReadAttempt),
      seqlock_read_env_loop obs fuel i = none ↔ ∀ j < fuel, attemptFails (obs (i + j)) := by
  intro fuel
  induction fuel with
  | zero => intro i obs; simp [seqlock_read_env_loop]
  | succ fuel ih =>
    intro i obs
    simp only [seqlock_read_env_loop]
    by_cases hodd : (obs i).s1 % 2 ≠ 0
    · simp only [if_pos hodd, ih]
      constructor
      · intro h j hj
        match j, hj with
        | 0, _ => exact Or.inl (by simpa using Nat.mod_two_eq_zero_or_one (obs i).s1 |>.resolve_left (by simpa using hodd))
        | j + 1, hj =>
          have := h j (by omega)
          simpa [Nat.add_assoc, Nat.add_comm 1 j] using this
      · intro h j hj
        have := h (j + 1) (by omega)
        simpa [Nat.add_assoc, Nat.add_comm 1 j] using this
    · simp only [if_neg hodd]
      push_neg at hodd
      by_cases heq : (obs i).s1 = (obs i).s2
      · simp only [if_pos heq]
        constructor
        · intro h; cases h
        · intro h
          have h0 := h 0 (by omega)
          simp only [Nat.add_zero] at h0
          rcases h0 with h0 | h0
          · omega
          · exact absurd heq h0.2
      · simp only [if_neg heq, ih]
        constructor
        · intro h j hj
          match j, hj with
          | 0, _ => exact Or.inr ⟨by simpa using hodd, by simpa using heq⟩
          | j + 1, hj =>
            have := h j (by omega)
            simpa [Nat.add_assoc, Nat.add_comm 1 j] using this
        · intro h j hj
          have := h (j + 1) (by omega)
          simpa [Nat.add_assoc, Nat.add_comm 1 j] using this

theorem seqlock_read_env_loop_some :
    ∀ (fuel i : Nat) (obs : Nat → ReadAttempt) (snap : PriceSnapshot),
      seqlock_read_env_loop obs fuel i = some snap →
      ∃ j < fuel, (obs (i + j)).s1 % 2 = 0 ∧ (obs (i + j)).s1 = (obs (i + j)).s2 ∧
        snap = { best_bid := (obs (i + j)).bid, best_ask := (obs (i + j)).ask,
                 updated_at := (obs (i + j)).ts } := by
  intro fuel
  induction fuel with
  | zero => intro i obs snap h; simp [seqlock_read_env_loop] at h
  | succ fuel ih =>
    intro i obs snap h
    simp only [seqlock_read_env_loop] at h
    by_cases hodd : (obs i).s1 % 2 ≠ 0
    · rw [if_pos hodd] at h
      obtain ⟨j, hj, hprop⟩ := ih (i + 1) obs snap h
      exact ⟨j + 1, by omega, by simpa [Nat.add_assoc, Nat.add_comm 1 j] using hprop⟩
    · rw [if_neg hodd] at h
      push_neg at hodd
      by_cases heq : (obs i).s1 = (obs i).s2
      · rw [if_pos heq] at h
        exact ⟨0, by omega, by simpa using hodd, by simpa using heq,
               by simpa using h.symm⟩
      · rw [if_neg heq] at h
        obtain ⟨j, hj, hprop⟩ := ih (i + 1) obs snap h
        exact ⟨j + 1, by omega, by simpa [Nat.add_assoc, Nat.add_comm 1 j] using hprop⟩

theorem seqlock_read_env_loop_congr :
    ∀ (fuel i : Nat) (obs obs2 : Nat → ReadAttempt),
      (∀ j < fuel, obs (i + j) = obs2 (i + j)) →
      seqlock_read_env_loop obs fuel i = seqlock_read_env_loop obs2 fuel i := by
  intro fuel
  induction fuel with
  | zero => intro i obs obs2 _; simp [seqlock_read_env_loop]
  | succ fuel ih =>
    intro i obs obs2 h
    have h0 : obs i = obs2 i := by simpa using h 0 (by omega)
    have hrest : ∀ j < fuel, obs (i + 1 + j) = obs2 (i + 1 + j) := by
      intro j hj
      have := h (j + 1) (by omega)
      simpa [Nat.add_assoc, Nat.add_comm 1 j] using this
    simp only [seqlock_read_env_loop, h0, ih (i + 1) obs obs2 hrest]

/-- Claim C4: `seqlock_read` makes at most `MAX_READ_RETRIES = 4`
attempts (its result depends only on the first four attempts'
observations); it returns `none` exactly when every one of those
attempts observes an odd sequence or a changed sequence; and its only
other outcome is `some` of a snapshot read whole within one successful
attempt.  Being a total function, it always terminates and never raises
an error. -/
theorem spec_c4_bounded_retries (obs : Nat → ReadAttempt) :
    (seqlock_read_env obs = none ↔ ∀ i < MAX_READ_RETRIES, attemptFails (obs i)) ∧
    (∀ snapshot : PriceSnapshot, seqlock_read_env obs = some snapshot →
       ∃ i < MAX_READ_RETRIES, (obs i).s1 % 2 = 0 ∧ (obs i).s1 = (obs i).s2 ∧
         snapshot = { best_bid := (obs i).bid, best_ask := (obs i).ask,
                      updated_at := (obs i).ts }) ∧
    (∀ obs2 : Nat → ReadAttempt, (∀ i < MAX_READ_RETRIES, obs i = obs2 i) →
       seqlock_read_env obs = seqlock_read_env obs2) := by
  refine ⟨?_, fun snapshot h => ?_, fun obs2 h => ?_⟩
  · rw [seqlock_read_env, seqlock_read_env_loop_none_iff]
    simp
  · have := seqlock_read_env_loop_some MAX_READ_RETRIES 0 obs snapshot h
    simpa using this
  · rw [seqlock_read_env, seqlock_read_env]
    exact seqlock_read_env_loop_congr MAX_READ_RETRIES 0 obs obs2 (by simpa using h)

theorem spec_c4_bounded_retries_witness :
    (∀ i < MAX_READ_RETRIES,
       attemptFails ((fun _ => ⟨1, 0, 0, 0, 1⟩ : Nat → ReadAttempt) i)) ∧
    seqlock_read_env (fun _ => ⟨1, 0, 0, 0, 1⟩) = none :=
  ⟨by decide,
   (spec_c4_bounded_retries (fun _ => ⟨1, 0, 0, 0, 1⟩)).1.mpr (by decide)⟩

theorem land_mask_eq_mod (n : Nat) : n &&& MASK = n % CAPACITY := by
  have h1 : MASK = 2 ^ 16 - 1 := by norm_num [MASK, CAPACITY]
  have h2 : CAPACITY = 2 ^ 16 := by norm_num [CAPACITY]
  rw [h1, h2]
  exact Nat.and_pow_two_sub_one_eq_mod n 16

theorem RingBuffer.push_succeeds (rb : RingBuffer) (e : Nat)
    (hnf : rb.producer - rb.consumer < CAPACITY) :
    rb.push e = (true, { rb with
      entries := Function.update rb.entries (rb.producer &&& MASK) e
      producer := rb.producer + 1 }) := by
  rw [RingBuffer.push, if_neg (by omega)]

theorem RingBuffer.push_toList (rb : RingBuffer) (e : Nat) (hwf : rb.WF)
    (hnf : rb.producer - rb.consumer < CAPACITY) :
    (rb.push e).1 = true ∧
    (rb.push e).2.toList = rb.toList ++ [e] ∧
    (rb.push e).2.WF ∧
    (rb.push e).2.consumer = rb.consumer ∧
    (rb.push e).2.producer = rb.producer + 1 := by
  obtain ⟨hcl, hcu⟩ := hwf
  rw [RingBuffer.push_succeeds rb e hnf]
  refine ⟨rfl, ?_, ⟨by simp; omega, by simp [CAPACITY] at *; omega⟩, rfl, rfl⟩
  simp only [RingBuffer.toList]
  have hn : rb.producer + 1 - rb.consumer = (rb.producer - rb.consumer) + 1 := by omega
  rw [hn, List.range_succ, List.map_append]
  congr 1
  · apply List.map_congr_left
    intro k hk
    have hk' : k < rb.producer - rb.consumer := List.mem_range.mp hk
    apply Function.update_noteq
    rw [land_mask_eq_mod, land_mask_eq_mod]
    simp only [CAPACITY] at *
    omega
  · simp only [List.map_cons, List.map_nil]
    have hpe : rb.consumer + (rb.producer - rb.consumer) = rb.producer := by omega
    rw [hpe, Function.update_same]

theorem RingBuffer.pop_spec (rb : RingBuffer) (hwf : rb.WF) :
    (rb.pop).1 = rb.toList.head? ∧
    (rb.pop).2.toList = rb.toList.tail ∧
    (rb.pop).2.WF ∧
    ((rb.pop).1 = none ↔ rb.consumer ≥ rb.producer) := by
  obtain ⟨hcl, hcu⟩ := hwf
  by_cases hge : rb.consumer ≥ rb.producer
  · have hz : rb.producer - rb.consumer = 0 := by omega
    rw [RingBuffer.pop, if_pos hge]
    refine ⟨by simp [RingBuffer.toList, hz], by simp [RingBuffer.toList, hz],
            ⟨hcl, hcu⟩, by simpa using hge⟩
  · push_neg at hge
    rw [RingBuffer.pop, if_neg (by omega)]
    have hn : rb.producer - rb.consumer = (rb.producer - (rb.consumer + 1)) + 1 := by omega
    simp only [RingBuffer.toList, hn, List.range_succ_eq_map, List.map_cons,
      Nat.add_zero, List.head?_cons, List.tail_cons, List.map_map]
    refine ⟨by trivial, ?_, ⟨by simp; omega, by simp; omega⟩, ?_⟩
    · apply List.map_congr_left
      intro k _
      simp only [Function.comp_apply]
      have hik : rb.consumer + k.succ = rb.consumer + 1 + k := by omega
      rw [hik]
    · simp
      omega

theorem RingBuffer.pushAll_spec :
    ∀ (es : List Nat) (rb : RingBuffer), rb.WF →
      (rb.producer - rb.consumer) + es.length ≤ CAPACITY →
      (rb.pushAll es).2 = true ∧
      (rb.pushAll es).1.toList = rb.toList ++ es ∧
      (rb.pushAll es).1.WF ∧
      (rb.pushAll es).1.consumer = rb.consumer ∧
      (rb.pushAll es).1.producer = rb.producer + es.length := by
  intro es
  induction es with
  | nil =>
    intro rb hwf _
    simp [RingBuffer.pushAll, hwf]
  | cons e rest ih =>
    intro rb hwf hcap
    have hnf : rb.producer - rb.consumer < CAPACITY := by
      simp only [List.length_cons] at hcap
      omega
    obtain ⟨hok, hlist, hwf', hcons, hprod⟩ := RingBuffer.push_toList rb e hwf hnf
    have hcap' : ((rb.push e).2.producer - (rb.push e).2.consumer) + rest.length
        ≤ CAPACITY := by
      rw [hcons, hprod]
      obtain ⟨h1, _⟩ := hwf
      simp only [List.length_cons] at hcap
      omega
    obtain ⟨rok, rlist, rwf, rcons, rprod⟩ := ih (rb.push e).2 hwf' hcap'
    simp only [RingBuffer.pushAll]
    refine ⟨by simp [hok, rok], ?_, rwf, by rw [rcons, hcons], ?_⟩
    · rw [rlist, hlist]
      simp
    · rw [rprod, hprod]
      simp only [List.length_cons]
      omega

theorem RingBuffer.push_full (rb : RingBuffer) (e : Nat)
    (h : rb.producer - rb.consumer ≥ CAPACITY) : rb.push e = (false, rb) := by
  rw [RingBuffer.push, if_pos h]

theorem RingBuffer.pop_nonempty (rb : RingBuffer) (h : rb.consumer < rb.producer) :
    rb.pop = (some (rb.entries (rb.consumer &&& MASK)),
              { rb with consumer := rb.consumer + 1 }) := by
  rw [RingBuffer.pop, if_neg (by omega)]

theorem RingBuffer.create_wf : RingBuffer.create.WF := by
  constructor <;> simp [RingBuffer.create]

/-- Claim C5: from an empty ring buffer, pushing `CAPACITY` (65,536)
events succeeds every time; the next push returns false without
mutating any state; after popping one event exactly one more push
succeeds (and the one after that fails); and sequential pushes and pops
— any interleaving, any number of wraparounds — are FIFO: a successful
push appends to the pending list, pop removes and returns its head, and
pop returns `none` exactly when the consumer position has caught up
with the producer position. -/
theorem spec_c5_ring_fifo :
    (∀ es : List Nat, es.length ≤ CAPACITY →
       (RingBuffer.create.pushAll es).2 = true) ∧
    (∀ es : List Nat, es.length = CAPACITY → ∀ e : Nat,
       (RingBuffer.create.pushAll es).1.push e
         = (false, (RingBuffer.create.pushAll es).1)) ∧
    (∀ es : List Nat, es.length = CAPACITY → ∀ e e2 : Nat,
       (((RingBuffer.create.pushAll es).1.pop).2.push e).1 = true ∧
       ((((RingBuffer.create.pushAll es).1.pop).2.push e).2.push e2)
         = (false, (((RingBuffer.create.pushAll es).1.pop).2.push e).2)) ∧
    (∀ es : List Nat, es.length ≤ CAPACITY →
       (RingBuffer.create.pushAll es).1.toList = es) ∧
    (∀ (rb : RingBuffer) (e : Nat), rb.WF →
       ((rb.push e).1 = true ↔ rb.producer - rb.consumer < CAPACITY) ∧
       (rb.producer - rb.consumer < CAPACITY →
          (rb.push e).2.toList = rb.toList ++ [e]) ∧
       ((rb.push e).1 = false → (rb.push e).2 = rb) ∧
       ((rb.pop).1 = rb.toList.head?) ∧
       ((rb.pop).2.toList = rb.toList.tail) ∧
       ((rb.pop).1 = none ↔ rb.consumer ≥ rb.producer)) := by
  have hc0 : RingBuffer.create.producer = 0 := rfl
  have hc1 : RingBuffer.create.consumer = 0 := rfl
  have hcap : ∀ es : List Nat, es.length ≤ CAPACITY →
      RingBuffer.create.producer - RingBuffer.create.consumer + es.length ≤ CAPACITY := by
    intro es h; rw [hc0, hc1]; omega
  refine ⟨?_, ?_, ?_, ?_, ?_⟩
  · intro es hlen
    exact (RingBuffer.pushAll_spec es RingBuffer.create RingBuffer.create_wf
      (hcap es hlen)).1
  · intro es hlen e
    obtain ⟨-, -, -, hcons, hprod⟩ := RingBuffer.pushAll_spec es RingBuffer.create
      RingBuffer.create_wf (hcap es (le_of_eq hlen))
    apply RingBuffer.push_full
    rw [hcons, hprod, hc0, hc1, hlen]
    omega
  · intro es hlen e e2
    obtain ⟨-, -, -, hcons, hprod⟩ := RingBuffer.pushAll_spec es RingBuffer.create
      RingBuffer.create_wf (hcap es (le_of_eq hlen))
    rw [hc1] at hcons
    rw [hc0, hlen] at hprod
    have hpos : (0 : Nat) < CAPACITY := by norm_num [CAPACITY]
    have hpop := RingBuffer.pop_nonempty (RingBuffer.create.pushAll es).1
      (by rw [hcons, hprod]; exact hpos)
    have hpush := RingBuffer.push_succeeds ((RingBuffer.create.pushAll es).1.pop).2 e
      (by rw [hpop]; simp [hcons, hprod]; omega)
    constructor
    · rw [hpush]
    · apply RingBuffer.push_full
      rw [hpush]
      simp only [RingBuffer.pop] at *
      rw [hpop]
      simp [hcons, hprod]
  · intro es hlen
    have := (RingBuffer.pushAll_spec es RingBuffer.create RingBuffer.create_wf
      (hcap es hlen)).2.1
    rw [this]
    simp [RingBuffer.toList, RingBuffer.create, hc0, hc1]
  · intro rb e hwf
    obtain ⟨hpop1, hpop2, _, hpope⟩ := RingBuffer.pop_spec rb hwf
    refine ⟨?_, ?_, ?_, hpop1, hpop2, hpope⟩
    · by_cases hnf : rb.producer - rb.consumer < CAPACITY
      · simp [(RingBuffer.push_toList rb e hwf hnf).1, hnf]
      · rw [RingBuffer.push_full rb e (by omega)]
        simpa using hnf
    · intro hnf
      exact (RingBuffer.push_toList rb e hwf hnf).2.1
    · intro hfalse
      by_cases hnf : rb.producer - rb.consumer < CAPACITY
      · rw [(RingBuffer.push_toList rb e hwf hnf).1] at hfalse
        cases hfalse
      · rw [RingBuffer.push_full rb e (by omega)]

theorem spec_c5_ring_fifo_witness :
    (List.replicate CAPACITY 0).length ≤ CAPACITY ∧
    (RingBuffer.create.pushAll (List.replicate CAPACITY 0)).2 = true ∧
    RingBuffer.create.WF ∧
    ((RingBuffer.create.pop).1 = none ↔
      RingBuffer.create.consumer ≥ RingBuffer.create.producer) :=
  ⟨by simp, spec_c5_ring_fifo.1 _ (by simp), RingBuffer.create_wf,
   (spec_c5_ring_fifo.2.2.2.2 RingBuffer.create 0 RingBuffer.create_wf).2.2.2.2.2⟩

theorem coherent_of_seq_even (val : Nat → Int) (σ : ConcState)
    (hw : WInv val σ) (he : σ.seq % 2 = 0) : σ.ask = σ.bid + 1 := by
  obtain ⟨hseq, h1, h2, h3, h4, h5, h6⟩ := hw
  have hg : gseq σ % 2 = 0 := by
    rw [hseq, Nat.mod_mod_of_dvd _ dvd_two_u64] at he
    exact he
  cases hwpc : σ.wpc
  case loadSeq => exact h1 hwpc
  case storeOdd => exact (h2 hwpc).1
  case writeBid => simp [gseq, hwpc, WriterPC.writing] at hg; omega
  case writeAsk => simp [gseq, hwpc, WriterPC.writing] at hg; omega
  case writeTs => simp [gseq, hwpc, WriterPC.writing] at hg; omega
  case storeEven => simp [gseq, hwpc, WriterPC.writing] at hg; omega

theorem RInv_transfer (σ σ' : ConcState)
    (hrpc : σ'.rpc = σ.rpc) (hs1 : σ'.s1 = σ.s1) (hrbid : σ'.rbid = σ.rbid)
    (hrask : σ'.rask = σ.rask) (hg : gseq σ ≤ gseq σ')
    (hvac : ∀ g1, g1 % 2 = 0 → g1 ≤ gseq σ → g1 = gseq σ' →
      g1 = gseq σ ∧ σ'.ask = σ.ask ∧ σ'.bid = σ.bid)
    (h : RInv σ) : RInv σ' := by
  obtain ⟨h1, h2, h3, h4⟩ := h
  refine ⟨?_, ?_, ?_, ?_⟩
  · intro hr
    obtain ⟨g1, e1, e2, e3, e4⟩ := h1 (hrpc.symm.trans hr)
    refine ⟨g1, by rw [hs1, e1], e2, le_trans e3 hg, fun hgg => ?_⟩
    obtain ⟨hq, hask, hbid⟩ := hvac g1 e2 e3 hgg
    rw [hask, hbid]
    exact e4 hq
  · intro hr
    obtain ⟨g1, e1, e2, e3, e4⟩ := h2 (hrpc.symm.trans hr)
    refine ⟨g1, by rw [hs1, e1], e2, le_trans e3 hg, fun hgg => ?_⟩
    obtain ⟨hq, hask, hbid⟩ := hvac g1 e2 e3 hgg
    rw [hask, hbid, hrbid]
    exact e4 hq
  · intro hr
    obtain ⟨g1, e1, e2, e3, e4⟩ := h3 (hrpc.symm.trans hr)
    refine ⟨g1, by rw [hs1, e1], e2, le_trans e3 hg, fun hgg => ?_⟩
    obtain ⟨hq, -, -⟩ := hvac g1 e2 e3 hgg
    rw [hrask, hrbid]
    exact e4 hq
  · intro hr
    obtain ⟨g1, e1, e2, e3, e4⟩ := h4 (hrpc.symm.trans hr)
    refine ⟨g1, by rw [hs1, e1], e2, le_trans e3 hg, fun hgg => ?_⟩
    obtain ⟨hq, -, -⟩ := hvac g1 e2 e3 hgg
    rw [hrask, hrbid]
    exact e4 hq

theorem writerStep_gseq (val : Nat → Int) (tsv : Nat → Nat) (σ : ConcState) :
    gseq σ ≤ gseq (writerStep val tsv σ) ∧
    gseq (writerStep val tsv σ) ≤ gseq σ + 1 := by
  cases hwpc : σ.wpc <;>
    simp [writerStep, hwpc, gseq, WriterPC.writing] <;> omega

theorem writerStep_results (val : Nat → Int) (tsv : Nat → Nat) (σ : ConcState) :
    (writerStep val tsv σ).results = σ.results := by
  cases hwpc : σ.wpc <;> simp [writerStep, hwpc]

theorem writerStep_rinv (val : Nat → Int) (tsv : Nat → Nat) (σ : ConcState)
    (h : RInv σ) : RInv (writerStep val tsv σ) := by
  cases hwpc : σ.wpc
  case loadSeq =>
    refine RInv_transfer σ _ (by simp [writerStep, hwpc]) (by simp [writerStep, hwpc])
      (by simp [writerStep, hwpc]) (by simp [writerStep, hwpc]) ?_ ?_ h <;>
      simp [writerStep, hwpc, gseq, WriterPC.writing]
  case storeOdd =>
    refine RInv_transfer σ _ (by simp [writerStep, hwpc]) (by simp [writerStep, hwpc])
      (by simp [writerStep, hwpc]) (by simp [writerStep, hwpc]) ?_ ?_ h <;>
      simp [writerStep, hwpc, gseq, WriterPC.writing] <;> omega
  case writeBid =>
    refine RInv_transfer σ _ (by simp [writerStep, hwpc]) (by simp [writerStep, hwpc])
      (by simp [writerStep, hwpc]) (by simp [writerStep, hwpc]) ?_ ?_ h <;>
      simp [writerStep, hwpc, gseq, WriterPC.writing] <;> omega
  case writeAsk =>
    refine RInv_transfer σ _ (by simp [writerStep, hwpc]) (by simp [writerStep, hwpc])
      (by simp [writerStep, hwpc]) (by simp [writerStep, hwpc]) ?_ ?_ h <;>
      simp [writerStep, hwpc, gseq, WriterPC.writing] <;> omega
  case writeTs =>
    refine RInv_transfer σ _ (by simp [writerStep, hwpc]) (by simp [writerStep, hwpc])
      (by simp [writerStep, hwpc]) (by simp [writerStep, hwpc]) ?_ ?_ h <;>
      simp [writerStep, hwpc, gseq, WriterPC.writing] <;> omega
  case storeEven =>
    refine RInv_transfer σ _ (by simp [writerStep, hwpc]) (by simp [writerStep, hwpc])
      (by simp [writerStep, hwpc]) (by simp [writerStep, hwpc]) ?_ ?_ h <;>
      simp [writerStep, hwpc, gseq, WriterPC.writing] <;> omega

theorem writerStep_winv (val : Nat → Int) (tsv : Nat → Nat) (σ : ConcState)
    (h : WInv val σ) : WInv val (writerStep val tsv σ) := by
  obtain ⟨hseq, h1, h2, h3, h4, h5, h6⟩ := h
  cases hwpc : σ.wpc <;>
    simp_all [writerStep, WInv, gseq, WriterPC.writing, Nat.mod_add_mod,
      Nat.mul_add, Nat.mul_one] <;>
    omega

theorem readerStep_winv (val : Nat → Int) (σ : ConcState)
    (h : WInv val σ) : WInv val (readerStep σ) := by
  obtain ⟨hseq, h1, h2, h3, h4, h5, h6⟩ := h
  cases hrpc : σ.rpc <;>
    simp only [readerStep, hrpc] <;>
    (try split_ifs) <;>
    simp_all [WInv, gseq, WriterPC.writing]

theorem readerStep_gseq (σ : ConcState) : gseq (readerStep σ) = gseq σ := by
  cases hrpc : σ.rpc <;> simp only [readerStep, hrpc] <;> (try split_ifs) <;> simp [gseq]

theorem readerStep_rinv_good (val : Nat → Int) (σ : ConcState)
    (h : ConcInv val σ) (hub : gseq σ < U64) :
    RInv (readerStep σ) ∧ GoodResults (readerStep σ) := by
  obtain ⟨hw, hr, hgood⟩ := h
  obtain ⟨r1, r2, r3, r4⟩ := hr
  cases hrpc : σ.rpc
  case loadS1 =>
    simp only [readerStep, hrpc]
    split_ifs with hodd
    · exact ⟨⟨by simp, by simp, by simp, by simp⟩, by simpa [GoodResults] using hgood⟩
    · simp only [Decidable.not_not] at hodd
      refine ⟨⟨?_, by simp, by simp, by simp⟩, by simpa [GoodResults] using hgood⟩
      intro _
      refine ⟨gseq σ, ?_, ?_, by simp [gseq], fun _ => ?_⟩
      · simpa [gseq] using hw.1
      · have hmm := Nat.mod_mod_of_dvd (gseq σ) dvd_two_u64
        rw [hw.1] at hodd
        omega
      · simpa using coherent_of_seq_even val σ hw hodd
  case readBid =>
    simp only [readerStep, hrpc]
    refine ⟨⟨by simp, ?_, by simp, by simp⟩, by simpa [GoodResults] using hgood⟩
    intro _
    obtain ⟨g1, e1, e2, e3, e4⟩ := r1 hrpc
    refine ⟨g1, by simpa using e1, e2, by simpa [gseq] using e3, fun hgg => ?_⟩
    have hco := e4 (by simpa [gseq] using hgg)
    simp [hco]
  case readAsk =>
    simp only [readerStep, hrpc]
    refine ⟨⟨by simp, by simp, ?_, by simp⟩, by simpa [GoodResults] using hgood⟩
    intro _
    obtain ⟨g1, e1, e2, e3, e4⟩ := r2 hrpc
    refine ⟨g1, by simpa using e1, e2, by simpa [gseq] using e3, fun hgg => ?_⟩
    obtain ⟨hb, hco⟩ := e4 (by simpa [gseq] using hgg)
    simp only []
    omega
  case readTs =>
    simp only [readerStep, hrpc]
    refine ⟨⟨by simp, by simp, by simp, ?_⟩, by simpa [GoodResults] using hgood⟩
    intro _
    obtain ⟨g1, e1, e2, e3, e4⟩ := r3 hrpc
    refine ⟨g1, by simpa using e1, e2, by simpa [gseq] using e3, fun hgg => ?_⟩
    have hco := e4 (by simpa [gseq] using hgg)
    simpa using hco
  case loadS2 =>
    simp only [readerStep, hrpc]
    split_ifs with heq
    · refine ⟨⟨by simp, by simp, by simp, by simp⟩, ?_⟩
      intro r hrr
      simp only [List.mem_cons] at hrr
      rcases hrr with hnew | hold
      · obtain ⟨g1, e1, e2, e3, e4⟩ := r4 hrpc
        have hs2 : σ.s1 = gseq σ % U64 := by rw [heq, hw.1]
        have hg1 : g1 = gseq σ := by
          rw [e1] at hs2
          have h64 : (0 : Nat) < U64 := by norm_num [U64]
          have hlt1 : g1 % U64 = g1 := Nat.mod_eq_of_lt (lt_of_le_of_lt e3 hub)
          have hlt2 : gseq σ % U64 = gseq σ := Nat.mod_eq_of_lt hub
          omega
        have hco := e4 hg1
        rw [hnew]
        simpa using hco
      · exact hgood r hold
    · exact ⟨⟨by simp, by simp, by simp, by simp⟩, by simpa [GoodResults] using hgood⟩

theorem concStep_preserves (val : Nat → Int) (tsv : Nat → Nat) (b : Bool)
    (σ : ConcState) (h : ConcInv val σ) (hub : gseq σ < U64) :
    ConcInv val (if b then writerStep val tsv σ else readerStep σ) ∧
    gseq (if b then writerStep val tsv σ else readerStep σ) ≤ gseq σ + 1 := by
  obtain ⟨hw, hr, hgood⟩ := h
  cases b
  · simp only [if_neg Bool.false_ne_true]
    obtain ⟨hr', hgood'⟩ := readerStep_rinv_good val σ ⟨hw, hr, hgood⟩ hub
    exact ⟨⟨readerStep_winv val σ hw, hr', hgood'⟩, by rw [readerStep_gseq]; omega⟩
  · have hstep : (if (true : Bool) = true then writerStep val tsv σ else readerStep σ)
        = writerStep val tsv σ := by simp
    rw [hstep]
    refine ⟨⟨writerStep_winv val tsv σ hw, writerStep_rinv val tsv σ hr, ?_⟩,
            (writerStep_gseq val tsv σ).2⟩
    intro r hrr
    rw [writerStep_results] at hrr
    exact hgood r hrr

theorem runSched_preserves (val : Nat → Int) (tsv : Nat → Nat) :
    ∀ (sched : List Bool) (σ : ConcState), ConcInv val σ →
      gseq σ + sched.length ≤ U64 →
      ConcInv val (runSched val tsv sched σ) := by
  intro sched
  induction sched with
  | nil => intro σ h _; simpa [runSched] using h
  | cons bb rest ih =>
    intro σ h hlen
    simp only [List.length_cons] at hlen
    have hub : gseq σ < U64 := by omega
    obtain ⟨hinv, hg⟩ := concStep_preserves val tsv bb σ h hub
    have hrun : runSched val tsv (bb :: rest) σ
        = runSched val tsv rest (if bb then writerStep val tsv σ else readerStep σ) := by
      simp [runSched]
    rw [hrun]
    exact ih _ hinv (by omega)

theorem initConcState_inv (val : Nat → Int) (b : Int) (t0 : Nat) :
    ConcInv val (initConcState b t0) ∧ gseq (initConcState b t0) = 0 := by
  simp [ConcInv, initConcState, WInv, RInv, GoodResults, gseq, WriterPC.writing]

/-- Claim C1: with one writer continuously performing seqlock writes of
snapshots with ask = bid + 1 and a concurrent reader repeatedly running
the seqlock read protocol on the same slot — modelled as an explicit
interleaving of their individual shared-memory loads and stores, over
every possible schedule (hence over any number of read attempts,
100,000 or more) — every read that returns a snapshot satisfies
ask - bid = 1 exactly: no torn read mixes fields from two different
writes.  The schedule-length bound `2^64` only excludes executions long
enough to wrap the 64-bit sequence counter. -/
theorem spec_c1_no_torn_reads (val : Nat → Int) (tsv : Nat → Nat) (b : Int) (t0 : Nat)
    (sched : List Bool) (hlen : sched.length ≤ U64) :
    ∀ r ∈ (runSched val tsv sched (initConcState b t0)).results, r.2.1 = r.1 + 1 := by
  obtain ⟨hinv, hg0⟩ := initConcState_inv val b t0
  have := runSched_preserves val tsv sched (initConcState b t0) hinv
    (by rw [hg0]; omega)
  exact this.2.2

theorem spec_c1_no_torn_reads_witness :
    ([false, false, false, false, false] : List Bool).length ≤ U64 ∧
    (runSched (fun _ => 0) (fun _ => 0) [false, false, false, false, false]
       (initConcState 5 0)).results = [(5, 6, 0)] ∧
    ((5 : Int), (6 : Int), (0 : Nat)).2.1 = ((5 : Int), (6 : Int), (0 : Nat)).1 + 1 :=
  ⟨by norm_num [U64], by decide,
   spec_c1_no_torn_reads (fun _ => 0) (fun _ => 0) 5 0
     [false, false, false, false, false] (by norm_num [U64]) (5, 6, 0) (by decide)⟩
